import Mathlib

/-!
Verification of `investment_estimator.py`.

The program's numeric work happens on Python floats.  We embed floats as
exact rational numbers together with a positive-overflow state: a value is
`some q : Option ℚ` when finite and `none` when it has overflowed to
`+inf`.  Saturation happens as soon as an arithmetic result exceeds
`FMAX`, the model of `sys.float_info.max`.  Rounding error and negative
overflow are not modelled; every quantity this program feeds through the
overflow check is non-negative, and no claim below depends on the rounding
of an individual float operation.
-/

/-- Model of `sys.float_info.max`, the largest finite IEEE-754 double,
whose exact value is `(2^53 - 1) * 2^971`. -/
def FMAX : ℚ := (2 ^ 53 - 1) * 2 ^ 971

/-- Float value: `some q` is a finite value, `none` is `+inf`. -/
abbrev FloatV : Type := Option ℚ

/-- Float addition: exact rational addition saturating to `+inf` above `FMAX`. -/
def fadd : FloatV → FloatV → FloatV
  | some a, some b => if FMAX < a + b then none else some (a + b)
  | _, _ => none

/-- Float multiplication: exact rational multiplication saturating to `+inf`
above `FMAX`. -/
def fmul : FloatV → FloatV → FloatV
  | some a, some b => if FMAX < a * b then none else some (a * b)
  | _, _ => none

/-- Order on float values: `none` (`+inf`) is the top element. -/
def fle : FloatV → FloatV → Prop
  | _, none => True
  | none, some _ => False
  | some a, some b => a ≤ b

/-- Non-negativity of a float value (`+inf` counts as non-negative). -/
def fnonneg : FloatV → Prop
  | none => True
  | some a => 0 ≤ a

/-- One iteration of the loop body of `_invest_monthly` (lines 137-138):
`total += self._monthly_contribution` followed by
`total *= 1 + (self._annual_return_rate / 12)`. -/
def investStep (c r : ℚ) (t : FloatV) : FloatV :=
  fmul (fadd t (some c)) (some (1 + r / 12))

/-- `InvestmentEstimator._invest_monthly` (lines 133-140): start the
accumulator `total` at `0.0` and run the loop body once for each
`i in range(months)`. -/
def invest_monthly (c r : ℚ) (months : ℕ) : FloatV :=
  (List.range months).foldl (fun t _ => investStep c r t) (some 0)

/-- The fold described by the spec: start an accumulator at 0 and, for each
of the `months` iterations, first add the monthly contribution and then
multiply by `(1 + annualReturnRate/12)`. -/
def invest_monthly_spec (c r : ℚ) (months : ℕ) : FloatV :=
  (fun t => fmul (fadd t (some c)) (some (1 + r / 12)))^[months] (some 0)

/-- Python `range(start, stop, step)` for a positive `step`: the list of
`start + i*step` for `0 ≤ i < ceil((stop-start)/step)`. -/
def pyRange (start stop step : ℕ) : List ℕ :=
  List.range' start ((stop - start + step - 1) / step) step

/-- `InvestmentEstimator._calculate_year_checkpoints` (lines 124-131):
`range(5, years_to_invest, 5)` followed by `years_to_invest` itself
(`_YEAR_CHECKPOINT_STEP = 5`). -/
def calculate_year_checkpoints (Y : ℕ) : List ℕ :=
  pyRange 5 Y 5 ++ [Y]

/-- The outcome the core produces for one year checkpoint: either the
overflow state, or the quantities printed by `run` (lines 174-177). -/
inductive PResult where
  | overflow : PResult
  | ok (years : ℕ) (totalValue principal profit annualReturn annualReturnAfterTax : ℚ) :
      PResult
deriving DecidableEq

/-- The checkpoint loop of `InvestmentEstimator.run` (lines 163-183): for
each checkpoint compute `total = _invest_monthly(years * 12)`; on overflow
emit the overflow state and stop; otherwise emit
`principal = monthly_contribution * months`, `profit = total - principal`,
`annual_return = total * annual_return_rate` and
`annual_return_after_tax = annual_return * (1 - cap_gains_rate)`.
Quantities derived from a finite `total` are computed exactly; their own
float rounding is not modelled. -/
def runCheckpoints (c r g : ℚ) : List ℕ → List PResult
  | [] => []
  | y :: rest =>
    match invest_monthly c r (y * 12) with
    | none => [PResult.overflow]
    | some t =>
        PResult.ok y t (c * ((y * 12 : ℕ) : ℚ)) (t - c * ((y * 12 : ℕ) : ℚ)) (t * r)
            (t * r * (1 - g)) ::
          runCheckpoints c r g rest

/-- The whole projection: `run` applied to the generated checkpoints. -/
def compute_projection (c r g : ℚ) (Y : ℕ) : List PResult :=
  runCheckpoints c r g (calculate_year_checkpoints Y)

/-- Does the compounding computation stay finite at year checkpoint `y`? -/
def finiteAt (c r : ℚ) (y : ℕ) : Bool :=
  (invest_monthly c r (y * 12)).isSome

/-- The non-overflow result `run` emits for checkpoint `y` (lines 174-177). -/
def okResult (c r g : ℚ) (y : ℕ) : PResult :=
  PResult.ok y ((invest_monthly c r (y * 12)).getD 0) (c * ((y * 12 : ℕ) : ℚ))
    ((invest_monthly c r (y * 12)).getD 0 - c * ((y * 12 : ℕ) : ℚ))
    ((invest_monthly c r (y * 12)).getD 0 * r)
    ((invest_monthly c r (y * 12)).getD 0 * r * (1 - g))

/-- Decimal digit as a character. -/
def digitChar (d : ℕ) : Char := Char.ofNat (48 + d)

/-- Decimal digits of a natural number, most significant first (fuelled;
`fuel = n + 1` always suffices). -/
def natDigitsAux : ℕ → ℕ → List Char
  | 0, _ => []
  | fuel + 1, n =>
    if n < 10 then [digitChar n] else natDigitsAux fuel (n / 10) ++ [digitChar (n % 10)]

/-- Decimal digits of a natural number, most significant first. -/
def natDigits (n : ℕ) : List Char := natDigitsAux (n + 1) n

/-- Decimal string of a natural number. -/
def natToStr (n : ℕ) : String := String.mk (natDigits n)

/-- Length of Python `str(n)` for an integer `n` (a sign character plus the
decimal digits). -/
def strLen (n : ℤ) : ℕ :=
  (if n < 0 then 1 else 0) + (natDigits n.natAbs).length

/-- Round-half-to-even of `a / p` on naturals: the banker's rounding Python's
`round` applies. -/
def rheNat (a p : ℕ) : ℕ :=
  let q := a / p
  let r := a % p
  if 2 * r < p then q else if p < 2 * r then q + 1 else if q % 2 = 0 then q else q + 1

/-- Round-half-to-even of `n / p` on integers, symmetric about zero as
Python's `round` is. -/
def rheInt (n : ℤ) (p : ℕ) : ℤ :=
  if 0 ≤ n then (rheNat n.toNat p : ℤ) else -(rheNat (-n).toNat p : ℤ)

/-- Python `round(n, ndigits)` on an integer `n`: unchanged for
`ndigits ≥ 0`, otherwise rounded half-to-even to a multiple of
`10^(-ndigits)`. -/
def pyRound (n : ℤ) (ndigits : ℤ) : ℤ :=
  if 0 ≤ ndigits then n
  else rheInt n (10 ^ (-ndigits).toNat) * ((10 : ℤ) ^ (-ndigits).toNat)

/-- Line 145: `round(num, _LEFT_DIGITS_TO_ROUND_TO - len(str(int(num))))`
with `_LEFT_DIGITS_TO_ROUND_TO = 3`. -/
def leftRound (n : ℤ) : ℤ := pyRound n (3 - (strLen n : ℤ))

/-- The ordered abbreviation table (lines 4-13), in dict insertion order. -/
def LARGE_NUM_ABBREVIATIONS : List (ℤ × String) :=
  [(10 ^ 3, "K"), (10 ^ 6, "M"), (10 ^ 9, "B"), (10 ^ 12, "T"),
   (10 ^ 15, "Qa"), (10 ^ 18, "Qi"), (10 ^ 21, "Sx"), (10 ^ 24, "Sp")]

/-- Line 15: the last key of the abbreviation table. -/
def LARGEST_NUM : ℤ := (LARGE_NUM_ABBREVIATIONS.getLastD (1, "")).1

/-- Line 16: the last suffix of the abbreviation table. -/
def LARGEST_NUM_ABBREVIATION : String := (LARGE_NUM_ABBREVIATIONS.getLastD (1, "")).2

/-- The threshold scan of `_format_num` (lines 146-155), returning the
numerator, the divisor and the suffix of the value finally printed:
`(rounded, prev_amount, prev_abbreviation)` at the first threshold
exceeding `rounded`, and `(rounded * 1000, LARGEST_NUM,
LARGEST_NUM_ABBREVIATION)` when the table is exhausted. -/
def scanSelect (rounded : ℤ) : List (ℤ × String) → ℤ → String → ℤ × ℤ × String
  | [], _, _ => (rounded * 1000, LARGEST_NUM, LARGEST_NUM_ABBREVIATION)
  | (amount, abbr) :: rest, prevAmount, prevAbbr =>
    if rounded < amount then (rounded, prevAmount, prevAbbr)
    else scanSelect rounded rest amount abbr

/-- Strip trailing `'0'` characters. -/
def stripZeros (l : List Char) : List Char :=
  (l.reverse.dropWhile (fun ch => ch = '0')).reverse

/-- Fixed-point rendering of the significant digits `D` with decimal
exponent `e` (the position of the leading digit), as `%g` does when the
exponent is in range. -/
def fixedStr (D : List Char) (e : ℤ) : String :=
  if 0 ≤ e then
    let k := e.toNat + 1
    if D.length ≤ k then String.mk (D ++ List.replicate (k - D.length) '0')
    else String.mk (D.take k) ++ "." ++ String.mk (D.drop k)
  else String.mk ('0' :: '.' :: (List.replicate ((-e).toNat - 1) '0' ++ D))

/-- Scientific rendering of the significant digits `D` with decimal
exponent `e`, as `%g` does when the exponent is out of range. -/
def expStr (D : List Char) (e : ℤ) : String :=
  String.mk (D.take 1) ++ (if 1 < D.length then "." ++ String.mk (D.drop 1) else "") ++
    "e" ++ (if e < 0 then "-" else "+") ++
    (if e.natAbs < 10 then "0" ++ natToStr e.natAbs else natToStr e.natAbs)

/-- Python `format(v, "g")` for the exact rational `v = n / den`, where
`den` is a positive power of ten (the only divisors `_format_num`
produces): round to 6 significant digits (half-to-even), use fixed-point
form when the decimal exponent lies in `[-4, 6)` and scientific form
otherwise, stripping trailing zeros.  The binary rounding of the float
quotient is not modelled; on the 3-significant-digit values `_format_num`
produces the decimal reading is exact. -/
def gFormatFrac (n : ℤ) (den : ℤ) : String :=
  if n = 0 then "0"
  else
    let sign := if n < 0 then "-" else ""
    let a := n.natAbs
    let k := (natDigits den.natAbs).length - 1
    let dc := (natDigits a).length
    let e : ℤ := (dc : ℤ) - 1 - (k : ℤ)
    let m6 := if dc ≤ 6 then a * 10 ^ (6 - dc) else rheNat a (10 ^ (dc - 6))
    let em : ℤ × ℕ := if m6 = 10 ^ 6 then (e + 1, 10 ^ 5) else (e, m6)
    let D := stripZeros (natDigits em.2)
    if -4 ≤ em.1 ∧ em.1 < 6 then sign ++ fixedStr D em.1 else sign ++ expStr D em.1

/-- `_format_num` (lines 142-155) after the initial `int()` truncation:
round to 3 significant left digits, scan the abbreviation table, and render
`~$<value><suffix>` with `%g` formatting of the quotient. -/
def formatIntNum (n : ℤ) : String :=
  "~$" ++ gFormatFrac (scanSelect (leftRound n) LARGE_NUM_ABBREVIATIONS 1 "").1
      (scanSelect (leftRound n) LARGE_NUM_ABBREVIATIONS 1 "").2.1 ++
    (scanSelect (leftRound n) LARGE_NUM_ABBREVIATIONS 1 "").2.2

/-- Python `int()` on a float value: truncation toward zero. -/
def pyTrunc (q : ℚ) : ℤ := if 0 ≤ q then ⌊q⌋ else -⌊-q⌋

/-- `InvestmentEstimator._format_num` (lines 142-155): `num = int(num)`
then the integer formatting pipeline. -/
def format_num (q : ℚ) : String := formatIntNum (pyTrunc q)

/-- The rational value and suffix a scan selection denotes. -/
def selectValue (sel : ℤ × ℤ × String) : ℚ × String :=
  ((sel.1 : ℚ) / (sel.2.1 : ℚ), sel.2.2)

/-- Selection written from the spec's words: scan thresholds in ascending
order, the first threshold strictly exceeding the rounded value selects the
previous threshold's divisor and suffix (divisor 1 and no suffix below
`10^3`), and a value at or above `10^24` is divided by `10^21` with suffix
`Sp`. -/
def select_spec (n : ℤ) : ℚ × String :=
  if n < 10 ^ 3 then ((n : ℚ), "")
  else if n < 10 ^ 6 then ((n : ℚ) / 10 ^ 3, "K")
  else if n < 10 ^ 9 then ((n : ℚ) / 10 ^ 6, "M")
  else if n < 10 ^ 12 then ((n : ℚ) / 10 ^ 9, "B")
  else if n < 10 ^ 15 then ((n : ℚ) / 10 ^ 12, "T")
  else if n < 10 ^ 18 then ((n : ℚ) / 10 ^ 15, "Qa")
  else if n < 10 ^ 21 then ((n : ℚ) / 10 ^ 18, "Qi")
  else if n < 10 ^ 24 then ((n : ℚ) / 10 ^ 21, "Sx")
  else ((n : ℚ) / 10 ^ 21, "Sp")

/-- The conversion inside `_get_percent_input` (lines 81-87), with string
parsing abstracted to the parsed numeric value `x` and a flag recording
whether the raw input ended in a percent sign: a percent input yields
`x / 100`, a bare value below 1 yields itself, and a bare value at or above
1 yields `x / 100`. -/
def percent_convert (endsWithPercent : Bool) (x : ℚ) : ℚ :=
  if endsWithPercent then x / 100 else if x < 1 then x else x / 100

/-- `_get_percent_input` (lines 89-93) applied to a validated input: the
value returned by `_get_input` is wrapped in `int(...)` before being
returned to `_get_inputs`. -/
def get_percent_stored (endsWithPercent : Bool) (x : ℚ) : ℤ :=
  pyTrunc (percent_convert endsWithPercent x)

theorem invest_monthly_succ (c r : ℚ) (m : ℕ) :
    invest_monthly c r (m + 1) = investStep c r (invest_monthly c r m) := by
  simp [invest_monthly, List.range_succ]

theorem pyRange_checkpoints (Y : ℕ) : pyRange 5 Y 5 = List.range' 5 ((Y - 1) / 5) 5 := by
  unfold pyRange
  congr 1
  omega

theorem mem_pyRange_checkpoints (Y x : ℕ) (hY : 0 < Y) :
    x ∈ pyRange 5 Y 5 ↔ x % 5 = 0 ∧ 0 < x ∧ x < Y := by
  rw [pyRange_checkpoints, List.mem_range']
  constructor
  · rintro ⟨i, hi, rfl⟩
    omega
  · rintro ⟨h5, hpos, hlt⟩
    exact ⟨x / 5 - 1, by omega, by omega⟩

/-- C1: `invest_monthly(months)` equals the fold that starts an accumulator
at 0 and, for each of the `months` iterations, first adds the monthly
contribution and then multiplies by `(1 + r/12)`; in particular
`invest_monthly(0) = 0`. -/
theorem claim_C1 (c r : ℚ) (months : ℕ) :
    invest_monthly c r months = invest_monthly_spec c r months
    ∧ invest_monthly c r 0 = some 0 := by
  refine ⟨?_, rfl⟩
  induction months with
  | zero => rfl
  | succ m ih =>
    rw [invest_monthly_succ, ih]
    simp only [invest_monthly_spec, Function.iterate_succ_apply']
    rfl

/-- C2: the checkpoint sequence is the ascending multiples of 5 strictly
below `Y` followed by `Y` itself; it is strictly increasing, non-empty,
ends exactly at `Y`, contains `Y` once, equals `[Y]` for `Y ≤ 5`, and
matches the spec's examples for 17, 20 and 3. -/
theorem claim_C2 (Y : ℕ) (hY : 0 < Y) :
    calculate_year_checkpoints Y = List.range' 5 ((Y - 1) / 5) 5 ++ [Y]
    ∧ (∀ x : ℕ, x ∈ calculate_year_checkpoints Y ↔ (x % 5 = 0 ∧ 0 < x ∧ x < Y) ∨ x = Y)
    ∧ List.Chain' (· < ·) (calculate_year_checkpoints Y)
    ∧ calculate_year_checkpoints Y ≠ []
    ∧ (calculate_year_checkpoints Y).getLast? = some Y
    ∧ (Y ≤ 5 → calculate_year_checkpoints Y = [Y])
    ∧ (calculate_year_checkpoints Y).count Y = 1
    ∧ calculate_year_checkpoints 17 = [5, 10, 15, 17]
    ∧ calculate_year_checkpoints 20 = [5, 10, 15, 20]
    ∧ calculate_year_checkpoints 3 = [3] := by
  have hmem : ∀ x : ℕ, x ∈ pyRange 5 Y 5 ↔ x % 5 = 0 ∧ 0 < x ∧ x < Y := fun x =>
    mem_pyRange_checkpoints Y x hY
  have hlt : ∀ a ∈ pyRange 5 Y 5, a < Y := fun a ha => ((hmem a).1 ha).2.2
  have hpw : List.Pairwise (· < ·) (pyRange 5 Y 5) := by
    rw [pyRange_checkpoints]
    exact List.pairwise_lt_range' 5 _ 5 (by norm_num)
  refine ⟨?_, ?_, ?_, ?_, ?_, ?_, ?_, by decide, by decide, by decide⟩
  · unfold calculate_year_checkpoints
    rw [pyRange_checkpoints]
  · intro x
    simp only [calculate_year_checkpoints, List.mem_append, List.mem_singleton, hmem]
  · refine List.Pairwise.chain' ?_
    unfold calculate_year_checkpoints
    rw [List.pairwise_append]
    refine ⟨hpw, List.pairwise_singleton _ _, ?_⟩
    intro a ha b hb
    rw [List.mem_singleton] at hb
    subst hb
    exact hlt a ha
  · simp [calculate_year_checkpoints]
  · simp [calculate_year_checkpoints, List.getLast?_concat]
  · intro h5
    unfold calculate_year_checkpoints
    have hz : pyRange 5 Y 5 = [] := by
      unfold pyRange
      have : (Y - 5 + 5 - 1) / 5 = 0 := by omega
      rw [this]
      rfl
    rw [hz]
    rfl
  · unfold calculate_year_checkpoints
    rw [List.count_append]
    have hz : (pyRange 5 Y 5).count Y = 0 := by
      refine List.count_eq_zero.mpr ?_
      intro hc
      have := ((hmem Y).1 hc).2.2
      omega
    rw [hz]
    simp

theorem claim_C2_witness :
    0 < 17 ∧ calculate_year_checkpoints 17 = List.range' 5 ((17 - 1) / 5) 5 ++ [17] :=
  ⟨by norm_num, (claim_C2 17 (by norm_num)).1⟩

theorem fle_refl (t : FloatV) : fle t t := by
  cases t with
  | none => exact trivial
  | some a => exact le_refl a

theorem fle_trans {a b c : FloatV} (h1 : fle a b) (h2 : fle b c) : fle a c := by
  cases a with
  | none =>
    cases c with
    | none => exact trivial
    | some cv =>
      cases b with
      | none => exact False.elim h2
      | some bv => exact False.elim h1
  | some av =>
    cases c with
    | none => exact trivial
    | some cv =>
      cases b with
      | none => exact False.elim h2
      | some bv => exact le_trans h1 h2

theorem fnonneg_investStep (c r : ℚ) (hc : 0 ≤ c) (hr : 0 ≤ r) (t : FloatV)
    (ht : fnonneg t) : fnonneg (investStep c r t) := by
  cases t with
  | none => exact trivial
  | some a =>
    simp only [investStep, fadd]
    split
    · exact trivial
    · simp only [fmul]
      split
      · exact trivial
      · have h1 : (0 : ℚ) ≤ a + c := add_nonneg ht hc
        have hrq : (0 : ℚ) ≤ r / 12 := div_nonneg hr (by norm_num)
        exact mul_nonneg h1 (by linarith)

theorem fnonneg_invest (c r : ℚ) (hc : 0 ≤ c) (hr : 0 ≤ r) (m : ℕ) :
    fnonneg (invest_monthly c r m) := by
  induction m with
  | zero => exact le_refl 0
  | succ n ih =>
    rw [invest_monthly_succ]
    exact fnonneg_investStep c r hc hr _ ih

theorem fle_investStep (c r : ℚ) (hc : 0 < c) (hr : 0 ≤ r) (t : FloatV)
    (ht : fnonneg t) : fle t (investStep c r t) := by
  cases t with
  | none => exact trivial
  | some a =>
    simp only [investStep, fadd]
    split
    · exact trivial
    · simp only [fmul]
      split
      · exact trivial
      · have ha : (0 : ℚ) ≤ a := ht
        have hrq : (0 : ℚ) ≤ r / 12 := div_nonneg hr (by norm_num)
        have h2 : a + c ≤ (a + c) * (1 + r / 12) :=
          le_mul_of_one_le_right (by linarith) (by linarith)
        show a ≤ (a + c) * (1 + r / 12)
        linarith

theorem invest_mono (c r : ℚ) (hc : 0 < c) (hr : 0 ≤ r) (m1 m2 : ℕ) (h : m1 ≤ m2) :
    fle (invest_monthly c r m1) (invest_monthly c r m2) := by
  induction h with
  | refl => exact fle_refl _
  | @step n hn ih =>
    refine fle_trans ih ?_
    rw [invest_monthly_succ]
    exact fle_investStep c r hc hr _ (fnonneg_invest c r hc.le hr n)

/-- C9: for a positive contribution and non-negative rate, the compounding
computation is monotone in the number of months; hence once it overflows at
one month count (or one year checkpoint) it overflows at every later one. -/
theorem claim_C9 (c r : ℚ) (hc : 0 < c) (hr : 0 ≤ r) :
    (∀ m1 m2 : ℕ, m1 ≤ m2 → fle (invest_monthly c r m1) (invest_monthly c r m2))
    ∧ (∀ m1 m2 : ℕ, m1 ≤ m2 → invest_monthly c r m1 = none →
        invest_monthly c r m2 = none)
    ∧ (∀ y1 y2 : ℕ, y1 ≤ y2 → invest_monthly c r (y1 * 12) = none →
        invest_monthly c r (y2 * 12) = none) := by
  have htop : ∀ m1 m2 : ℕ, m1 ≤ m2 → invest_monthly c r m1 = none →
      invest_monthly c r m2 = none := by
    intro m1 m2 h h1
    have hm := invest_mono c r hc hr m1 m2 h
    rw [h1] at hm
    cases h2 : invest_monthly c r m2 with
    | none => rfl
    | some v =>
      rw [h2] at hm
      exact False.elim hm
  exact ⟨fun m1 m2 h => invest_mono c r hc hr m1 m2 h, htop,
    fun y1 y2 h => htop (y1 * 12) (y2 * 12) (by omega)⟩

theorem claim_C9_witness :
    (0 : ℚ) < 1 ∧ (0 : ℚ) ≤ 0 ∧ fle (invest_monthly 1 0 1) (invest_monthly 1 0 2) :=
  ⟨by norm_num, le_refl 0, (claim_C9 1 0 (by norm_num) (le_refl 0)).1 1 2 (by norm_num)⟩

theorem runCheckpoints_ok_fields (c r g : ℚ) :
    ∀ (ys : List ℕ) (res : PResult), res ∈ runCheckpoints c r g ys →
      ∀ (y : ℕ) (t p pr ar arat : ℚ), res = PResult.ok y t p pr ar arat →
        invest_monthly c r (y * 12) = some t ∧ p = c * (y : ℚ) * 12 ∧ pr = t - p
          ∧ ar = t * r ∧ arat = ar * (1 - g) := by
  intro ys
  induction ys with
  | nil =>
    intro res h
    simp [runCheckpoints] at h
  | cons z rest ih =>
    intro res hres y t p pr ar arat heq
    rw [runCheckpoints] at hres
    cases hinv : invest_monthly c r (z * 12) with
    | none =>
      rw [hinv] at hres
      simp only [List.mem_singleton] at hres
      rw [hres] at heq
      exact absurd heq (by simp)
    | some tv =>
      rw [hinv] at hres
      simp only [List.mem_cons] at hres
      cases hres with
      | inl hres =>
        rw [hres] at heq
        obtain ⟨rfl, rfl, rfl, rfl, rfl, rfl⟩ := PResult.ok.inj heq
        refine ⟨hinv, ?_, rfl, rfl, rfl⟩
        push_cast
        ring
      | inr hres => exact ih res hres y t p pr ar arat heq

/-- C3: every non-overflowed checkpoint result satisfies the invariants
`principal = c * years * 12`, `profit = totalValue - principal`,
`annualReturn = totalValue * r` and
`annualReturnAfterTax = annualReturn * (1 - g)`, with `totalValue` the
compounding computation over `years * 12` months. -/
theorem claim_C3 (c r g : ℚ) (Y : ℕ) (res : PResult)
    (hres : res ∈ compute_projection c r g Y) (y : ℕ) (t p pr ar arat : ℚ)
    (heq : res = PResult.ok y t p pr ar arat) :
    invest_monthly c r (y * 12) = some t ∧ p = c * (y : ℚ) * 12 ∧ pr = t - p
      ∧ ar = t * r ∧ arat = ar * (1 - g) :=
  runCheckpoints_ok_fields c r g (calculate_year_checkpoints Y) res hres y t p pr ar arat heq

theorem runCheckpoints_eq (c r g : ℚ) (ys : List ℕ) :
    runCheckpoints c r g ys =
      (ys.takeWhile (finiteAt c r)).map (okResult c r g)
        ++ (if ys.all (finiteAt c r) then [] else [PResult.overflow]) := by
  induction ys with
  | nil => rfl
  | cons z rest ih =>
    rw [runCheckpoints]
    cases hinv : invest_monthly c r (z * 12) with
    | none =>
      have hfin : finiteAt c r z = false := by simp [finiteAt, hinv]
      simp [List.takeWhile_cons, List.all_cons, hfin, hinv]
    | some tv =>
      have hfin : finiteAt c r z = true := by simp [finiteAt, hinv]
      have hok : okResult c r g z
          = PResult.ok z tv (c * ((z * 12 : ℕ) : ℚ)) (tv - c * ((z * 12 : ℕ) : ℚ)) (tv * r)
              (tv * r * (1 - g)) := by
        simp [okResult, hinv]
      simp [List.takeWhile_cons, List.all_cons, hfin, hok, ih, hinv]

/-- C4: when the compounding accumulator reaches infinity at some
checkpoint, the projection is a total function whose output is the
non-overflow results of the earlier checkpoints followed by one overflow
state and nothing after it: the overflow is a first-class result, it has no
principal/profit breakdown, and every remaining checkpoint is omitted. -/
theorem claim_C4 (c r g : ℚ) (Y : ℕ)
    (h : ∃ y ∈ calculate_year_checkpoints Y, invest_monthly c r (y * 12) = none) :
    compute_projection c r g Y =
      ((calculate_year_checkpoints Y).takeWhile (finiteAt c r)).map (okResult c r g)
        ++ [PResult.overflow]
    ∧ PResult.overflow ∈ compute_projection c r g Y
    ∧ (compute_projection c r g Y).getLast? = some PResult.overflow := by
  have hall : (calculate_year_checkpoints Y).all (finiteAt c r) = false := by
    obtain ⟨y, hy, hnone⟩ := h
    cases hb : (calculate_year_checkpoints Y).all (finiteAt c r) with
    | false => rfl
    | true =>
      have := List.all_eq_true.mp hb y hy
      rw [finiteAt, hnone] at this
      simp at this
  have heq : compute_projection c r g Y =
      ((calculate_year_checkpoints Y).takeWhile (finiteAt c r)).map (okResult c r g)
        ++ [PResult.overflow] := by
    rw [compute_projection, runCheckpoints_eq, hall]
    simp
  refine ⟨heq, ?_, ?_⟩
  · rw [heq]
    simp
  · rw [heq]
    simp [List.getLast?_concat]

theorem claim_C4_witness :
    (∃ y ∈ calculate_year_checkpoints 1, invest_monthly ((10 : ℚ) ^ 308) 0 (y * 12) = none)
    ∧ PResult.overflow ∈ compute_projection ((10 : ℚ) ^ 308) 0 0 1 := by
  have h12 : List.range 12 = [0, 1, 2, 3, 4, 5, 6, 7, 8, 9, 10, 11] := rfl
  have hnone : invest_monthly ((10 : ℚ) ^ 308) 0 12 = none := by
    rw [invest_monthly, h12]
    simp only [List.foldl]
    norm_num [investStep, fadd, fmul, FMAX]
  have hex : ∃ y ∈ calculate_year_checkpoints 1,
      invest_monthly ((10 : ℚ) ^ 308) 0 (y * 12) = none := by
    refine ⟨1, by decide, ?_⟩
    simpa using hnone
  exact ⟨hex, (claim_C4 ((10 : ℚ) ^ 308) 0 0 1 hex).2.1⟩

/-- C8: with `monthlyContribution = 100`, `annualReturnRate = 0.10`,
`yearsToInvest = 1`, the single year-1 result has `principal = 1200`,
`totalValue` strictly above the principal, and
`profit = totalValue - principal`. -/
theorem claim_C8 (g : ℚ) :
    ∃ t : ℚ, compute_projection 100 (1 / 10) g 1
        = [PResult.ok 1 t 1200 (t - 1200) (t * (1 / 10)) (t * (1 / 10) * (1 - g))]
      ∧ 1200 < t := by
  have h12 : List.range 12 = [0, 1, 2, 3, 4, 5, 6, 7, 8, 9, 10, 11] := rfl
  have hinv : invest_monthly 100 (1 / 10) 12
      = some (112969499533744942460132761 / 89161004482560000000000) := by
    rw [invest_monthly, h12]
    simp only [List.foldl]
    norm_num [investStep, fadd, fmul, FMAX]
  refine ⟨112969499533744942460132761 / 89161004482560000000000, ?_, by norm_num⟩
  have hch : calculate_year_checkpoints 1 = [1] := by decide
  rw [compute_projection, hch]
  norm_num [runCheckpoints, hinv]

theorem claim_C3_witness :
    PResult.ok 1 12 12 0 0 0 ∈ compute_projection 1 0 0 1
    ∧ invest_monthly 1 0 (1 * 12) = some 12 := by
  have h12 : List.range 12 = [0, 1, 2, 3, 4, 5, 6, 7, 8, 9, 10, 11] := rfl
  have hinv : invest_monthly 1 0 12 = some 12 := by
    rw [invest_monthly, h12]
    simp only [List.foldl]
    norm_num [investStep, fadd, fmul, FMAX]
  have hch : calculate_year_checkpoints 1 = [1] := by decide
  have hres : compute_projection 1 0 0 1 = [PResult.ok 1 12 12 0 0 0] := by
    rw [compute_projection, hch]
    norm_num [runCheckpoints, hinv]
  have hmem : PResult.ok 1 12 12 0 0 0 ∈ compute_projection 1 0 0 1 := by
    rw [hres]
    exact List.mem_singleton.mpr rfl
  exact ⟨hmem, (claim_C3 1 0 0 1 _ hmem 1 12 12 0 0 0 rfl).1⟩

/-- C5: the input-acquisition step is meant to hand the core a decimal rate
strictly between 0 and 1, but `_get_percent_input` wraps the validated
float in `int(...)`: the input `15%` converts to `0.15` and is then stored
as `0`, which is not strictly between 0 and 1 (the blank-input default
`0.15` is truncated to `0` the same way). -/
theorem claim_C5 :
    percent_convert true 15 = 3 / 20
    ∧ get_percent_stored true 15 = 0
    ∧ pyTrunc (3 / 20 : ℚ) = 0
    ∧ ¬(0 < ((get_percent_stored true 15 : ℤ) : ℚ)
        ∧ ((get_percent_stored true 15 : ℤ) : ℚ) < 1) := by
  have h1 : percent_convert true 15 = 3 / 20 := by norm_num [percent_convert]
  have h3 : pyTrunc (3 / 20 : ℚ) = 0 := by norm_num [pyTrunc]
  have h2 : get_percent_stored true 15 = 0 := by rw [get_percent_stored, h1, h3]
  refine ⟨h1, h2, h3, ?_⟩
  rw [h2]
  norm_num

/-- C6: the threshold scan picks, for a non-negative rounded value, the
divisor and suffix of the bracket delimited by the first strictly exceeding
threshold (divisor 1 and empty suffix below `10^3`, divisor `10^21` with
suffix `Sp` at or above `10^24`); in particular 999 formats as `~$999` and
1000000 as `~$1M`. -/
theorem claim_C6 (n : ℤ) (h : 0 ≤ n) :
    selectValue (scanSelect n LARGE_NUM_ABBREVIATIONS 1 "") = select_spec n
    ∧ format_num (999 : ℚ) = "~$999"
    ∧ format_num (1000000 : ℚ) = "~$1M" := by
  refine ⟨?_, ?_, ?_⟩
  · have hL : LARGEST_NUM = 10 ^ 24 := by decide
    have hLA : LARGEST_NUM_ABBREVIATION = "Sp" := by decide
    simp only [LARGE_NUM_ABBREVIATIONS, scanSelect, hL, hLA, select_spec, selectValue]
    split_ifs
    all_goals norm_num
    all_goals ring
  · have ht : pyTrunc (999 : ℚ) = 999 := by norm_num [pyTrunc]
    rw [format_num, ht]
    decide
  · have ht : pyTrunc (1000000 : ℚ) = 1000000 := by norm_num [pyTrunc]
    rw [format_num, ht]
    decide

theorem claim_C6_witness :
    (0 : ℤ) ≤ 5 ∧ selectValue (scanSelect 5 LARGE_NUM_ABBREVIATIONS 1 "") = select_spec 5 :=
  ⟨by norm_num, (claim_C6 5 (by norm_num)).1⟩

theorem rheNat_nearest (a p : ℕ) (hp : 0 < p) :
    2 * |(rheNat a p : ℤ) * (p : ℤ) - (a : ℤ)| ≤ (p : ℤ) := by
  have hmod : p * (a / p) + a % p = a := Nat.div_add_mod a p
  have hlt : a % p < p := Nat.mod_lt a hp
  have hZ : (a : ℤ) = (p : ℤ) * ((a / p : ℕ) : ℤ) + ((a % p : ℕ) : ℤ) := by
    exact_mod_cast hmod.symm
  have hRnn : (0 : ℤ) ≤ ((a % p : ℕ) : ℤ) := Int.natCast_nonneg _
  have hRlt : ((a % p : ℕ) : ℤ) < (p : ℤ) := by exact_mod_cast hlt
  simp only [rheNat]
  split_ifs with h1 h2 h3
  · have he : ((a / p : ℕ) : ℤ) * (p : ℤ) - (a : ℤ) = -((a % p : ℕ) : ℤ) := by
      rw [hZ]
      ring
    rw [he, abs_neg, abs_of_nonneg hRnn]
    have : 2 * (a % p) < p := h1
    have h1z : 2 * ((a % p : ℕ) : ℤ) < (p : ℤ) := by exact_mod_cast this
    linarith
  · have he : ((a / p + 1 : ℕ) : ℤ) * (p : ℤ) - (a : ℤ) = (p : ℤ) - ((a % p : ℕ) : ℤ) := by
      rw [Nat.cast_add, Nat.cast_one, hZ]
      ring
    rw [he, abs_of_nonneg (by linarith)]
    have h2z : (p : ℤ) < 2 * ((a % p : ℕ) : ℤ) := by exact_mod_cast h2
    linarith
  · have he : ((a / p : ℕ) : ℤ) * (p : ℤ) - (a : ℤ) = -((a % p : ℕ) : ℤ) := by
      rw [hZ]
      ring
    have htie : 2 * ((a % p : ℕ) : ℤ) = (p : ℤ) := by
      have hle1 : p ≤ 2 * (a % p) := Nat.le_of_not_lt h1
      have hle2 : 2 * (a % p) ≤ p := Nat.le_of_not_lt h2
      exact_mod_cast Nat.le_antisymm hle2 hle1
    rw [he, abs_neg, abs_of_nonneg hRnn]
    linarith
  · have he : ((a / p + 1 : ℕ) : ℤ) * (p : ℤ) - (a : ℤ) = (p : ℤ) - ((a % p : ℕ) : ℤ) := by
      rw [Nat.cast_add, Nat.cast_one, hZ]
      ring
    have htie : 2 * ((a % p : ℕ) : ℤ) = (p : ℤ) := by
      have hle1 : p ≤ 2 * (a % p) := Nat.le_of_not_lt h1
      have hle2 : 2 * (a % p) ≤ p := Nat.le_of_not_lt h2
      exact_mod_cast Nat.le_antisymm hle2 hle1
    rw [he, abs_of_nonneg (by linarith)]
    linarith

/-- C7: before abbreviation the formatter rounds to at most 3 significant
leading digits: a value whose decimal representation already has at most 3
digits is unchanged, and otherwise the result is the nearest multiple of
`10^(digits - 3)`; in particular 123456 rounds to 123000. -/
theorem claim_C7 (n : ℤ) (h : 0 ≤ n) :
    (strLen n ≤ 3 → leftRound n = n)
    ∧ (3 < strLen n →
        (10 : ℤ) ^ (strLen n - 3) ∣ leftRound n
        ∧ 2 * |leftRound n - n| ≤ (10 : ℤ) ^ (strLen n - 3))
    ∧ leftRound 123456 = 123000 := by
  refine ⟨?_, ?_, by decide⟩
  · intro h3
    rw [leftRound, pyRound, if_pos (by omega : (0 : ℤ) ≤ 3 - (strLen n : ℤ))]
  · intro h3
    have hnd : ¬(0 : ℤ) ≤ 3 - (strLen n : ℤ) := by omega
    have ht : (-(3 - (strLen n : ℤ))).toNat = strLen n - 3 := by omega
    rw [leftRound, pyRound, if_neg hnd, ht]
    have hppos : 0 < 10 ^ (strLen n - 3) := by positivity
    refine ⟨dvd_mul_left _ _, ?_⟩
    have h0 : rheInt n (10 ^ (strLen n - 3)) = (rheNat n.toNat (10 ^ (strLen n - 3)) : ℤ) := by
      rw [rheInt, if_pos h]
    rw [h0]
    have hnear := rheNat_nearest n.toNat (10 ^ (strLen n - 3)) hppos
    rw [Int.toNat_of_nonneg h] at hnear
    have hpz : ((10 ^ (strLen n - 3) : ℕ) : ℤ) = (10 : ℤ) ^ (strLen n - 3) := by
      push_cast
      ring
    rw [hpz] at hnear
    exact hnear

theorem claim_C7_witness :
    (0 : ℤ) ≤ 123456 ∧ leftRound 123456 = 123000 :=
  ⟨by norm_num, (claim_C7 123456 (by norm_num)).2.2⟩

/-- C10: the formatter truncates its argument toward zero before the
significant-digit rounding, so a non-negative input formats exactly as its
integer floor does; in particular every value in `[999, 1000)` formats as
`~$999`. -/
theorem claim_C10 (x : ℚ) (h : 0 ≤ x) :
    format_num x = format_num ((⌊x⌋ : ℤ) : ℚ)
    ∧ (999 ≤ x → x < 1000 → format_num x = "~$999") := by
  have hfl : (0 : ℚ) ≤ ((⌊x⌋ : ℤ) : ℚ) := by
    have h0 : (0 : ℤ) ≤ ⌊x⌋ := Int.floor_nonneg.mpr h
    exact_mod_cast h0
  have h1 : pyTrunc x = ⌊x⌋ := by rw [pyTrunc, if_pos h]
  have h2 : pyTrunc ((⌊x⌋ : ℤ) : ℚ) = ⌊x⌋ := by
    rw [pyTrunc, if_pos hfl, Int.floor_intCast]
  constructor
  · rw [format_num, format_num, h1, h2]
  · intro ha hb
    have hfe : ⌊x⌋ = 999 := by
      rw [Int.floor_eq_iff]
      constructor
      · exact_mod_cast ha
      · push_cast
        linarith
    rw [format_num, h1, hfe]
    decide

theorem claim_C10_witness :
    (0 : ℚ) ≤ 1999 / 2
    ∧ format_num (1999 / 2) = format_num ((⌊(1999 / 2 : ℚ)⌋ : ℤ) : ℚ) :=
  ⟨by norm_num, (claim_C10 (1999 / 2) (by norm_num)).1⟩
